import Mathlib

/-!
Shallow embedding of the repository's `io` package (src/src/io/io.go).

Readers are modelled as step functions `σ → Nat → List Nat × Option IOErr × σ`:
given a state and a buffer capacity (the Go `len(p)`), a read returns the bytes
it produced, its status, and the successor state.  Writers are
`τ → List Nat → Int × Option IOErr × τ`: given a chunk they return the count
the Go `Write` reported (an `Int`, since the staging loop of `copyBuffer`
explicitly guards against a negative or over-large reported count), the status,
and the successor sink state.  `ReaderAt` implementations are modelled as pure
functions of the store, a capacity and an absolute offset, reflecting that Go's
`ReadAt` neither observes nor mutates any implicit cursor.

Go's sentinel error values (`EOF`, `ErrUnexpectedEOF`, `ErrShortBuffer`,
`ErrShortWrite`, `errInvalidWrite`, `errWhence`, `errOffset`) become the
constructors of the inductive type `IOErr`; `IOErr.other` stands for any
further error an underlying reader or writer may produce.  Loops that in Go
run until end-of-stream or an error are given explicit fuel; fuel exhaustion
is signalled by `none` and never identified with any real outcome.
-/

namespace GoIO

/-- Sentinel conditions of the io package: `eof` is `io.EOF`, `unexpectedEOF`
is `io.ErrUnexpectedEOF`, `shortBuffer` is `io.ErrShortBuffer`, `shortWrite`
is `io.ErrShortWrite`, `invalidWrite` is `io.errInvalidWrite`, `whenceErr` is
`io.errWhence`, `offsetErr` is `io.errOffset`; `other k` stands for any other
error value produced by an underlying reader or writer. -/
inductive IOErr : Type
  | eof
  | unexpectedEOF
  | shortBuffer
  | shortWrite
  | invalidWrite
  | whenceErr
  | offsetErr
  | other : Nat → IOErr
deriving DecidableEq, Repr

/-- Model of `io.Reader`: a state, a capacity (the length of the caller's
buffer), and the read's result: bytes produced, status, successor state. -/
abbrev ReaderM (σ : Type) := σ → Nat → List Nat × Option IOErr × σ

/-- Model of `io.Writer`: a sink state and a chunk give the reported written
count (as reported, hence `Int`), the status, and the successor sink state. -/
abbrev WriterM (τ : Type) := τ → List Nat → Int × Option IOErr × τ

/-- Model of `io.ReaderAt`: a store, a capacity and an absolute offset give
bytes and status; no state is threaded because `ReadAt` is cursor-free. -/
abbrev ReaderAtM (ρ : Type) := ρ → Nat → Int → List Nat × Option IOErr

/-- The staging loop of `copyBuffer` (io.go lines 532-558), fuel-indexed.
Each iteration reads up to `cap` bytes (the staging buffer size); if bytes
were produced it writes them, applying the Go guard `nw < 0 || nr < nw`
(reported count negative or larger than what was given → count forced to 0
and, when no explicit write error was returned, `errInvalidWrite`); the
written count is accumulated, a write error or a read/write count mismatch
(`ErrShortWrite`) stops the transfer, and a read error stops it with `EOF`
mapped to success.  `none` means the fuel ran out before the loop exited. -/
def copyBufferLoop (rd : ReaderM σ) (wr : WriterM τ) (cap : Nat) :
    Nat → σ → τ → Int → Option (Int × Option IOErr × σ × τ)
  | 0, _, _, _ => none
  | fuel + 1, s, t, written =>
    match rd s cap with
    | (chunk, er, s') =>
      if 0 < chunk.length then
        match wr t chunk with
        | (nw0, ew0, t') =>
          let nw : Int := if nw0 < 0 ∨ (chunk.length : Int) < nw0 then 0 else nw0
          let ew : Option IOErr :=
            if (nw0 < 0 ∨ (chunk.length : Int) < nw0) ∧ ew0 = none then
              some IOErr.invalidWrite
            else ew0
          match ew with
          | some e => some (written + nw, some e, s', t')
          | none =>
            if (chunk.length : Int) ≠ nw then
              some (written + nw, some IOErr.shortWrite, s', t')
            else
              match er with
              | some e =>
                some (written + nw, if e = IOErr.eof then none else some e, s', t')
              | none => copyBufferLoop rd wr cap fuel s' t' (written + nw)
      else
        match er with
        | some e => some (written, if e = IOErr.eof then none else some e, s', t)
        | none => copyBufferLoop rd wr cap fuel s' t written

/-- `io.Copy`: the staging loop with the default 32 KiB staging buffer and a
zero running total.  (The `WriterTo`/`ReaderFrom` fast paths of `copyBuffer`
are dynamic-type dispatches; the abstract reader/writer model corresponds to
the generic staging-loop case.) -/
def Copy (rd : ReaderM σ) (wr : WriterM τ) (fuel : Nat) (s : σ) (t : τ) :
    Option (Int × Option IOErr × σ × τ) :=
  copyBufferLoop rd wr (32 * 1024) fuel s t 0

/-- `(*LimitedReader).Read` (io.go lines 583-593) as a reader transformer.
State is the pair of the underlying state and the remaining budget `N`
(Go `int64`): if `N ≤ 0` return end-of-stream without touching the source;
otherwise clamp the capacity to `N`, delegate, and decrement `N` by the
number of bytes actually returned, propagating the status unchanged. -/
def limitedRead (rd : ReaderM σ) : ReaderM (σ × Int) :=
  fun st cap =>
    if st.2 ≤ 0 then ([], some IOErr.eof, st)
    else
      match rd st.1 (if (cap : Int) > st.2 then st.2.toNat else cap) with
      | (chunk, er, s') => (chunk, er, (s', st.2 - chunk.length))

/-- The staging-buffer size `copyBuffer` picks when the source is a
`*LimitedReader` with budget `n`: the default 32 KiB, shrunk to `n` (at
least 1) when `n` is smaller (io.go lines 521-530). -/
def copyNBufSize (n : Int) : Nat :=
  if (32 * 1024 : Int) > n then (if n < 1 then 1 else n.toNat) else 32 * 1024

/-- `io.CopyN` (io.go lines 453-463): wrap the source in a `LimitedReader`
capped at `n`, run the copy loop, then: if exactly `n` bytes were written
return `(n, success)` unconditionally; if fewer with no error, report `EOF`;
otherwise return the loop's outcome. -/
def CopyN (rd : ReaderM σ) (wr : WriterM τ) (n : Int) (fuel : Nat) (s : σ) (t : τ) :
    Option (Int × Option IOErr × (σ × Int) × τ) :=
  match copyBufferLoop (limitedRead rd) wr (copyNBufSize n) fuel (s, n) t 0 with
  | none => none
  | some (written, err, st, t') =>
    if written = n then some (n, none, st, t')
    else if written < n ∧ err = none then some (written, some IOErr.eof, st, t')
    else some (written, err, st, t')

/-- The loop of `ReadAtLeast` (io.go lines 416-420): while fewer than `mn`
bytes are accumulated and no error occurred, read into the unfilled region
(capacity `bufLen - n`) and add the bytes obtained.  `none` = fuel ran out
while the loop would have continued. -/
def readAtLeastLoop (rd : ReaderM σ) (bufLen mn : Nat) :
    Nat → Nat → Option IOErr → σ → Option (Nat × Option IOErr × σ)
  | 0, n, err, s => if n < mn ∧ err = none then none else some (n, err, s)
  | fuel + 1, n, err, s =>
    if n < mn ∧ err = none then
      match rd s (bufLen - n) with
      | (chunk, er, s') => readAtLeastLoop rd bufLen mn fuel (n + chunk.length) er s'
    else some (n, err, s)

/-- `io.ReadAtLeast` (io.go lines 412-427): immediate `ErrShortBuffer` when
the buffer is shorter than `mn`; otherwise run the loop and post-process the
error: drop it when `n ≥ mn`, upgrade `EOF` to `ErrUnexpectedEOF` when
`0 < n < mn`. -/
def ReadAtLeast (rd : ReaderM σ) (bufLen mn fuel : Nat) (s : σ) :
    Option (Nat × Option IOErr × σ) :=
  if bufLen < mn then some (0, some IOErr.shortBuffer, s)
  else
    match readAtLeastLoop rd bufLen mn fuel 0 none s with
    | none => none
    | some (n, err, s') =>
      some (n,
        if mn ≤ n then none
        else if 0 < n ∧ err = some IOErr.eof then some IOErr.unexpectedEOF
        else err, s')

/-- `io.ReadFull` (io.go lines 438-440): `ReadAtLeast` with `mn = len(buf)`. -/
def ReadFull (rd : ReaderM σ) (bufLen fuel : Nat) (s : σ) :
    Option (Nat × Option IOErr × σ) :=
  ReadAtLeast rd bufLen bufLen fuel s

/-- `io.SectionReader` state (io.go lines 612-617): store, window base, the
sequential cursor `off`, and the absolute end `limit`. -/
structure SectionReader (ρ : Type) where
  r : ρ
  base : Int
  off : Int
  limit : Int
deriving DecidableEq, Repr

/-- Maximum value of a Go `int64`, `1<<63 - 1` (io.go line 599). -/
def maxint64 : Int := 2 ^ 63 - 1

/-- `io.NewSectionReader` (io.go lines 597-608): `limit` is `off + n` when
`off ≤ maxint64 - n`, and saturates to `maxint64` on overflow; the function
is total — the Go signature has no error return, so the saturation reports
no error.  (`maxint64 - n` itself cannot wrap for lengths `n ≥ 0`, the
domain on which this unbounded-integer embedding is exact.) -/
def NewSectionReader (r : ρ) (off n : Int) : SectionReader ρ :=
  { r := r, base := off, off := off,
    limit := if off ≤ maxint64 - n then n + off else maxint64 }

/-- `(*SectionReader).Read` (io.go lines 619-629): end-of-stream at or past
`limit`; otherwise clamp the capacity to `limit - off`, delegate a read-at
at `off`, and advance `off` by the bytes returned. -/
def SectionReader.read (rdAt : ReaderAtM ρ) (s : SectionReader ρ) (cap : Nat) :
    List Nat × Option IOErr × SectionReader ρ :=
  if s.off ≥ s.limit then ([], some IOErr.eof, s)
  else
    match rdAt s.r (if (cap : Int) > s.limit - s.off then (s.limit - s.off).toNat else cap) s.off with
    | (chunk, err) => (chunk, err, { s with off := s.off + chunk.length })

/-- `(*SectionReader).Seek` (io.go lines 634-650): resolve the offset against
base / current / limit according to `whence` (any other `whence` is
`errWhence`), reject a resolved offset before `base` with `errOffset`, and
otherwise store it and return it relative to `base`.  No clamping against
`limit` takes place. -/
def SectionReader.seek (s : SectionReader ρ) (offset : Int) (whence : Int) :
    Int × Option IOErr × SectionReader ρ :=
  if whence = 0 ∨ whence = 1 ∨ whence = 2 then
    let off' := offset + (if whence = 0 then s.base else if whence = 1 then s.off else s.limit)
    if off' < s.base then (0, some IOErr.offsetErr, s)
    else (off' - s.base, none, { s with off := off' })
  else (0, some IOErr.whenceErr, s)

/-- `(*SectionReader).ReadAt` (io.go lines 652-666): a local offset outside
`[0, limit - base)` is end-of-stream; otherwise translate to the absolute
offset `off + base` and, when the capacity crosses `limit`, clamp it to
`limit - (off + base)` and upgrade a successful underlying result to
end-of-stream; a request fully inside the window delegates unchanged. -/
def SectionReader.readAt (rdAt : ReaderAtM ρ) (s : SectionReader ρ) (cap : Nat) (off : Int) :
    List Nat × Option IOErr :=
  if off < 0 ∨ off ≥ s.limit - s.base then ([], some IOErr.eof)
  else
    if (cap : Int) > s.limit - (off + s.base) then
      match rdAt s.r (s.limit - (off + s.base)).toNat (off + s.base) with
      | (chunk, err) => (chunk, if err = none then some IOErr.eof else err)
    else rdAt s.r cap (off + s.base)

/-- `(*teeReader).Read` (io.go lines 725-733): delegate to the source; if
bytes were produced, write exactly them to the sink before returning.  On a
sink write error the call reports the write's count and error (the Go code
shadows `n, err` with the write's results in that branch); on write success
the read's own count and status are returned. -/
def teeRead (rd : ReaderM σ) (wr : WriterM τ) : ReaderM (σ × τ) :=
  fun st cap =>
    match rd st.1 cap with
    | (chunk, er, s') =>
      if 0 < chunk.length then
        match wr st.2 chunk with
        | (nw, ew, t') =>
          match ew with
          | some e => (chunk.take nw.toNat, some e, (s', t'))
          | none => (chunk, er, (s', t'))
      else (chunk, er, (s', st.2))

/-- Runs a sequence of reads with the given capacities, concatenating all
the bytes yielded; used to speak about the total output of a reader across
several calls. -/
def runReads (rd : ReaderM σ) : List Nat → σ → List Nat × σ
  | [], s => ([], s)
  | cap :: caps, s =>
    match rd s cap with
    | (chunk, _, s') =>
      match runReads rd caps s' with
      | (rest, s'') => (chunk ++ rest, s'')

/-- A reader is a pure source with content abstraction `content` and
termination measure `bound` when every read with positive capacity produces
a prefix of the remaining content (at most the capacity), signals only
success or end-of-stream, is empty-content exactly at end-of-stream, and
strictly decreases the measure whenever it does not report end-of-stream.
This captures "a source whose total content is the byte sequence
`content s` and whose reads eventually report end-of-stream". -/
def IsSource (rd : ReaderM σ) (content : σ → List Nat) (bound : σ → Nat) : Prop :=
  ∀ s cap, 0 < cap →
    ((rd s cap).2.1 = none ∨ (rd s cap).2.1 = some IOErr.eof) ∧
    (rd s cap).1.length ≤ cap ∧
    content s = (rd s cap).1 ++ content (rd s cap).2.2 ∧
    ((rd s cap).2.1 = some IOErr.eof → content (rd s cap).2.2 = []) ∧
    ((rd s cap).2.1 = none → bound (rd s cap).2.2 < bound s)

/-- A writer is a sink accepting all bytes, with observation `recv`, when
every write reports exactly the chunk's length, no error, and appends the
chunk to the bytes received so far. -/
def IsGoodSink (wr : WriterM τ) (recv : τ → List Nat) : Prop :=
  ∀ t chunk, ∃ t',
    wr t chunk = ((chunk.length : Int), none, t') ∧ recv t' = recv t ++ chunk

/-- In-memory source for concrete test cases: state is the remaining byte
list; an empty state reports end-of-stream, otherwise up to `cap` bytes are
taken off the front with success status. -/
def listRead : ReaderM (List Nat) :=
  fun s cap =>
    if s.length = 0 then ([], some IOErr.eof, s)
    else (s.take cap, none, s.drop cap)

/-- Accumulating sink for concrete test cases: appends every chunk, reports
full counts and no error. -/
def accWrite : WriterM (List Nat) :=
  fun t chunk => ((chunk.length : Int), none, t ++ chunk)

/-- In-memory `ReaderAt` harness over a byte list: reads up to `cap` bytes
from offset `off`, reporting end-of-stream when fewer than `cap` bytes were
available (the behavior of an in-memory store such as `strings.Reader`). -/
def listReadAt : ReaderAtM (List Nat) :=
  fun store cap off =>
    if off < 0 then ([], some IOErr.eof)
    else
      ((store.drop off.toNat).take cap,
       if ((store.drop off.toNat).take cap).length < cap then some IOErr.eof else none)

/-- One-byte source for concrete counterexamples: yields the byte 7 once,
then end-of-stream. -/
def oneByteRead : ReaderM Bool :=
  fun s cap =>
    if s ∧ 0 < cap then ([7], none, false) else ([], some IOErr.eof, s)

/-- Sink that silently accepts nothing: reports 0 bytes written with no
error (a contract-violating writer, used to exercise the short-write path). -/
def dropSink : WriterM Unit :=
  fun _ _ => (0, none, ())

/-- Sink that over-reports: claims one byte more than it was given, with no
error (used to exercise the invalid-write-count path). -/
def overSink : WriterM Unit :=
  fun _ chunk => ((chunk.length : Int) + 1, none, ())


/-- Source that yields the byte 7 together with a non-end-of-stream error in
the same call (used to exercise the error-alongside-data paths). -/
def noisyRead : ReaderM Unit :=
  fun _ _ => ([7], some (IOErr.other 3), ())

/-! Helper lemmas about the concrete harness readers and writers. -/

/-- `listRead` never returns more bytes than the capacity it was given. -/
theorem listRead_wf : ∀ (s : List Nat) (c : Nat), (listRead s c).1.length ≤ c := by
  intro s c
  unfold listRead
  split
  · simp
  · exact List.length_take_le c s

/-- `listRead` is a pure source whose content is its state and whose measure
is the state's length. -/
theorem listRead_isSource : IsSource listRead id List.length := by
  intro s cap hcap
  unfold listRead
  by_cases h : s.length = 0
  · have hs : s = [] := List.eq_nil_of_length_eq_zero h
    subst hs
    simp
  · rw [if_neg h]
    refine ⟨Or.inl rfl, ?_, ?_, ?_, ?_⟩
    · exact List.length_take_le cap s
    · simp
    · intro hc
      simp at hc
    · intro _
      have := List.length_drop cap s
      simp only [id_eq]
      omega

/-- `accWrite` is a sink accepting all bytes, observed by the identity. -/
theorem accWrite_isGoodSink : IsGoodSink accWrite id := by
  intro t chunk
  exact ⟨t ++ chunk, rfl, rfl⟩

/-- C3 counterexample: a sink that accepts a 1-byte chunk but reports 0 bytes
written with no explicit error.  The staging loop reports `ErrShortWrite` for
this situation, not the invalid-write-count error the claim names: a write
returning fewer bytes than it was given without an explicit failure is a
short-write, and `errInvalidWrite` is reserved for a negative count or a
count larger than the chunk (io.go lines 536-550). -/
theorem copyLoop_short_write_counterexample :
    copyBufferLoop oneByteRead dropSink 32768 3 true () 0
      = some (0, some IOErr.shortWrite, false, ()) ∧
    IOErr.shortWrite ≠ IOErr.invalidWrite := by
  constructor
  · decide
  · decide

/-- C3 (amended): in the staging loop of `Copy`, a write whose reported count
is non-negative but smaller than the chunk it was given, with no explicit
failure, stops the transfer with `ErrShortWrite`; a write whose reported
count is negative or larger than the chunk, with no explicit failure, stops
it with `errInvalidWrite` and contributes 0 to the running total (io.go
lines 532-558). -/
theorem copyLoop_write_misbehavior {σ τ : Type} (rd : ReaderM σ) (wr : WriterM τ)
    (cap fuel : Nat) (s : σ) (t : τ) (w : Int)
    (chunk : List Nat) (er : Option IOErr) (s' : σ) (nw : Int) (ew : Option IOErr) (t' : τ)
    (hrd : rd s cap = (chunk, er, s')) (hwr : wr t chunk = (nw, ew, t')) (hne : chunk ≠ []) :
    (0 ≤ nw → nw < (chunk.length : Int) → ew = none →
       copyBufferLoop rd wr cap (fuel + 1) s t w
         = some (w + nw, some IOErr.shortWrite, s', t')) ∧
    ((nw < 0 ∨ (chunk.length : Int) < nw) → ew = none →
       copyBufferLoop rd wr cap (fuel + 1) s t w
         = some (w, some IOErr.invalidWrite, s', t')) := by
  have hpos : 0 < chunk.length := List.length_pos.mpr hne
  constructor
  · intro h0 hlt hew
    subst hew
    have hguard : ¬ (nw < 0 ∨ (chunk.length : Int) < nw) := by omega
    simp only [copyBufferLoop, hrd, hwr, if_pos hpos, and_true, if_neg hguard]
    rw [if_pos (by omega : (chunk.length : Int) ≠ nw)]
  · intro hbad hew
    subst hew
    simp only [copyBufferLoop, hrd, hwr, if_pos hpos, and_true, if_pos hbad, add_zero]

/-- C3 witness: concrete instances of both branches of the amended claim:
the under-reporting sink yields `ErrShortWrite`, the over-reporting sink
yields `errInvalidWrite`. -/
theorem copyLoop_write_misbehavior_witness :
    copyBufferLoop oneByteRead dropSink 32768 3 true () 0
      = some (0, some IOErr.shortWrite, false, ()) ∧
    copyBufferLoop oneByteRead overSink 32768 3 true () 0
      = some (0, some IOErr.invalidWrite, false, ()) := by
  constructor
  · exact ((copyLoop_write_misbehavior oneByteRead dropSink 32768 2 true () 0
      [7] none false 0 none () (by decide) (by decide) (by decide)).1
      (by decide) (by decide) rfl).trans (by decide)
  · exact ((copyLoop_write_misbehavior oneByteRead overSink 32768 2 true () 0
      [7] none false 2 none () (by decide) (by decide) (by decide)).2
      (by decide) rfl)

/-- C8: for the Section View constructor, the stored `limit` is exactly
`off + n` when that sum fits in a signed 64-bit integer, and saturates to
`maxint64 = 2^63 - 1` otherwise; the constructor is total, so no error is
reported in the overflow case (io.go lines 597-608).  The hypotheses bound
the inputs to the `int64` domain with a non-negative length, on which the
unbounded-integer embedding of the constructor is exact. -/
theorem newSectionReader_limit_spec {ρ : Type} (r : ρ) (off n : Int)
    (_hn : 0 ≤ n) (_hoff : -(2 ^ 63) ≤ off) :
    (off + n ≤ maxint64 → (NewSectionReader r off n).limit = off + n) ∧
    (maxint64 < off + n → (NewSectionReader r off n).limit = maxint64) := by
  have hM : maxint64 = 9223372036854775807 := by decide
  constructor
  · intro h
    rw [hM] at h
    simp only [NewSectionReader]
    rw [if_pos (by rw [hM]; omega)]
    omega
  · intro h
    rw [hM] at h
    simp only [NewSectionReader]
    rw [if_neg (by rw [hM]; omega)]

/-- C8 witness: a non-overflowing construction stores `off + n = 15`; an
overflowing one saturates to `maxint64`. -/
theorem newSectionReader_limit_witness :
    (NewSectionReader () 10 5).limit = 15 ∧
    (NewSectionReader () (2 ^ 63 - 3) 5).limit = maxint64 := by
  constructor
  · exact (newSectionReader_limit_spec () 10 5 (by decide) (by decide)).1 (by decide)
  · exact (newSectionReader_limit_spec () (2 ^ 63 - 3) 5 (by decide) (by decide)).2 (by decide)

/-- C9: the Mirroring Reader delegates to the source; whenever bytes were
returned they are written to the sink before the call returns: on write
success the read call returns the read's own count and status and the sink
state has received exactly the chunk; a sink write failure is reported as
the read call's failure (with the write's count) even though the underlying
read succeeded.  Reading the 5-byte stream "hello" through a mirror into an
accumulating sink leaves the sink holding exactly those 5 bytes and returns
them with success status (io.go lines 725-733). -/
theorem teeRead_spec {σ τ : Type} (rd : ReaderM σ) (wr : WriterM τ)
    (s : σ) (t : τ) (cap : Nat) (chunk : List Nat) (er : Option IOErr) (s' : σ)
    (hrd : rd s cap = (chunk, er, s')) (hne : chunk ≠ []) :
    (∀ nw t', wr t chunk = (nw, none, t') →
       teeRead rd wr (s, t) cap = (chunk, er, (s', t'))) ∧
    (∀ nw e t', wr t chunk = (nw, some e, t') →
       teeRead rd wr (s, t) cap = (chunk.take nw.toNat, some e, (s', t'))) ∧
    teeRead listRead accWrite ([104, 101, 108, 108, 111], []) 5
      = ([104, 101, 108, 108, 111], none, ([], [104, 101, 108, 108, 111])) := by
  have hpos : 0 < chunk.length := List.length_pos.mpr hne
  refine ⟨?_, ?_, by decide⟩
  · intro nw t' hwr
    simp only [teeRead, hrd, hwr, if_pos hpos]
  · intro nw e t' hwr
    simp only [teeRead, hrd, hwr, if_pos hpos]

/-- C9 witness: a one-byte source mirrored into the accumulating sink: the
read returns the byte with the source's status and the sink holds it. -/
theorem teeRead_witness :
    teeRead listRead accWrite ([9], []) 1 = ([9], none, ([], [9])) :=
  (teeRead_spec listRead accWrite [9] [] 1 [9] none [] (by decide) (by decide)).1
    1 [9] (by decide)

/-- C10: whenever the inner copy loop run by `CopyN` reports exactly `n`
bytes transferred, `CopyN` returns `(n, success)` unconditionally — any
failure the inner loop reported alongside the full count is discarded
(io.go lines 455-457). -/
theorem copyN_full_count_spec {σ τ : Type} (rd : ReaderM σ) (wr : WriterM τ)
    (n : Int) (fuel : Nat) (s : σ) (t : τ) (err : Option IOErr) (st : σ × Int) (t' : τ)
    (h : copyBufferLoop (limitedRead rd) wr (copyNBufSize n) fuel (s, n) t 0
           = some (n, err, st, t')) :
    CopyN rd wr n fuel s t = some (n, none, st, t') := by
  unfold CopyN
  rw [h]
  simp

/-- C10 witness: a source delivering its last byte together with a non-EOF
error; the inner loop reports `(1, other-error)`, and `CopyN` with `n = 1`
returns `(1, success)`, discarding the error. -/
theorem copyN_full_count_witness :
    CopyN noisyRead accWrite 1 3 () [] = some (1, none, ((), 0), [7]) :=
  copyN_full_count_spec noisyRead accWrite 1 3 () [] (some (IOErr.other 3))
    ((), 0) [7] (by decide)

/-- C6: for the Section View's absolute read-at, a local offset outside
`[0, limit - base)` reports end-of-stream with 0 bytes; a request starting
inside the window whose capacity crosses `limit` is clamped to
`limit - (off + base)` and a successful underlying result is upgraded to
end-of-stream (io.go lines 652-666). -/
theorem sectionReader_readAt_spec {ρ : Type} (rdAt : ReaderAtM ρ)
    (s : SectionReader ρ) (cap : Nat) (off : Int) :
    (off < 0 ∨ s.limit - s.base ≤ off →
       SectionReader.readAt rdAt s cap off = ([], some IOErr.eof)) ∧
    (0 ≤ off → off < s.limit - s.base → s.limit - (off + s.base) < (cap : Int) →
       SectionReader.readAt rdAt s cap off =
         ((rdAt s.r (s.limit - (off + s.base)).toNat (off + s.base)).1,
          if (rdAt s.r (s.limit - (off + s.base)).toNat (off + s.base)).2 = none then
            some IOErr.eof
          else (rdAt s.r (s.limit - (off + s.base)).toNat (off + s.base)).2)) := by
  constructor
  · intro h
    unfold SectionReader.readAt
    rw [if_pos (by omega)]
  · intro h0 hin hcross
    unfold SectionReader.readAt
    rw [if_neg (by omega), if_pos (by omega)]

/-- C6 witness: on a window of base 10 and length 5 over a 100-byte store,
local offset 7 is outside the window and reports end-of-stream; local
offset 3 with a capacity of 10 is clamped to 2 bytes and the successful
underlying read-at is upgraded to end-of-stream. -/
theorem sectionReader_readAt_witness :
    SectionReader.readAt listReadAt (NewSectionReader (List.range 100) 10 5) 10 7
      = ([], some IOErr.eof) ∧
    SectionReader.readAt listReadAt (NewSectionReader (List.range 100) 10 5) 10 3
      = ([13, 14], some IOErr.eof) := by
  constructor
  · exact (sectionReader_readAt_spec listReadAt (NewSectionReader (List.range 100) 10 5)
      10 7).1 (by decide)
  · exact ((sectionReader_readAt_spec listReadAt (NewSectionReader (List.range 100) 10 5)
      10 3).2 (by decide) (by decide) (by decide)).trans (by decide)

/-- C7: Section View seek accepts origins 0 (start), 1 (current) and
2 (end), resolves them against `base`, the current offset and `limit`
respectively, rejects a resolved offset before `base` with the
invalid-seek error (state unchanged), otherwise stores the resolved offset
without clamping against `limit` and returns it relative to `base`
(io.go lines 634-650).  Concretely, on a view with base 10 and length 5
over a 100-byte store: reading 3 bytes yields bytes 10-12 and cursor 13;
seeking to origin end with offset 0 moves the cursor to 15 (reported as 5,
past-the-window seeks succeed); the next read reports end-of-stream; and
seeking to local offset -4 from the start is rejected. -/
theorem sectionReader_seek_spec {ρ : Type} (s : SectionReader ρ) (offset w : Int)
    (hw : w = 0 ∨ w = 1 ∨ w = 2) :
    (offset + (if w = 0 then s.base else if w = 1 then s.off else s.limit) < s.base →
       SectionReader.seek s offset w = (0, some IOErr.offsetErr, s)) ∧
    (s.base ≤ offset + (if w = 0 then s.base else if w = 1 then s.off else s.limit) →
       SectionReader.seek s offset w =
         (offset + (if w = 0 then s.base else if w = 1 then s.off else s.limit) - s.base,
          none,
          { s with off := offset + (if w = 0 then s.base else if w = 1 then s.off else s.limit) })) ∧
    SectionReader.read listReadAt (NewSectionReader (List.range 100) 10 5) 3
      = ([10, 11, 12], none, ⟨List.range 100, 10, 13, 15⟩) ∧
    SectionReader.seek (⟨List.range 100, 10, 13, 15⟩ : SectionReader (List Nat)) 0 2
      = (5, none, ⟨List.range 100, 10, 15, 15⟩) ∧
    SectionReader.read listReadAt (⟨List.range 100, 10, 15, 15⟩ : SectionReader (List Nat)) 3
      = ([], some IOErr.eof, ⟨List.range 100, 10, 15, 15⟩) ∧
    (SectionReader.seek (⟨List.range 100, 10, 13, 15⟩ : SectionReader (List Nat)) (-4) 0).2.1
      = some IOErr.offsetErr := by
  refine ⟨?_, ?_, by decide, by decide, by decide, by decide⟩
  · intro h
    unfold SectionReader.seek
    rw [if_pos hw, if_pos h]
  · intro h
    unfold SectionReader.seek
    rw [if_pos hw, if_neg (by omega)]

/-- C7 witness: a concrete rejected seek (resolved offset before `base`)
and a concrete accepted past-the-end seek on the same state. -/
theorem sectionReader_seek_witness :
    SectionReader.seek (⟨(), 10, 13, 15⟩ : SectionReader Unit) (-4) 0
      = (0, some IOErr.offsetErr, ⟨(), 10, 13, 15⟩) ∧
    SectionReader.seek (⟨(), 10, 13, 15⟩ : SectionReader Unit) 0 2
      = (5, none, ⟨(), 10, 15, 15⟩) := by
  constructor
  · exact (sectionReader_seek_spec (⟨(), 10, 13, 15⟩ : SectionReader Unit) (-4) 0
      (by decide)).1 (by decide)
  · exact ((sectionReader_seek_spec (⟨(), 10, 13, 15⟩ : SectionReader Unit) 0 2
      (by decide)).2.1 (by decide)).trans (by decide)

/-- C5: for every Bounded Reader state `(s, N)` over any underlying reader:
the remaining budget never increases across a read; once `N ≤ 0` every read
returns 0 bytes and end-of-stream without invoking the underlying source
(the result is independent of it and the state is untouched); when `0 < N`
the read clamps the capacity to `N`, decrements the budget by the bytes
actually returned and propagates the underlying status unchanged; and for
any underlying reader honouring the read contract (never more bytes than
the capacity), the total bytes yielded across any sequence of reads never
exceeds `N` (io.go lines 583-593). -/
theorem limitedReader_spec {σ : Type} (rd rd' : ReaderM σ) (s : σ) (N : Int)
    (cap : Nat) (caps : List Nat) :
    (limitedRead rd (s, N) cap).2.2.2 ≤ N ∧
    (N ≤ 0 → limitedRead rd (s, N) cap = ([], some IOErr.eof, (s, N)) ∧
       limitedRead rd (s, N) cap = limitedRead rd' (s, N) cap) ∧
    (0 < N → limitedRead rd (s, N) cap =
       ((rd s (min cap N.toNat)).1, (rd s (min cap N.toNat)).2.1,
        ((rd s (min cap N.toNat)).2.2, N - ((rd s (min cap N.toNat)).1.length : Int)))) ∧
    ((∀ s₀ c, (rd s₀ c).1.length ≤ c) →
       (runReads (limitedRead rd) caps (s, N)).1.length ≤ N.toNat) := by
  have hclamp : 0 < N →
      (if (cap : Int) > N then N.toNat else cap) = min cap N.toNat := by
    intro hN
    split <;> omega
  refine ⟨?_, ?_, ?_, ?_⟩
  · unfold limitedRead
    by_cases hN : N ≤ 0
    · simp [hN]
    · simp only [hN, if_neg, if_false]
      rcases hr : rd s (if (cap : Int) > N then N.toNat else cap) with ⟨c, e, s2⟩
      simp only
      omega
  · intro hN
    constructor <;> (unfold limitedRead; simp [hN])
  · intro hN
    unfold limitedRead
    rw [if_neg (by omega), hclamp hN]
  · intro hwf
    clear hclamp
    induction caps generalizing s N with
    | nil => simp [runReads]
    | cons c cs ih =>
      unfold runReads
      by_cases hN : N ≤ 0
      · have h0 : limitedRead rd (s, N) c = ([], some IOErr.eof, (s, N)) := by
          unfold limitedRead
          simp [hN]
        rw [h0]
        rcases hrest : runReads (limitedRead rd) cs (s, N) with ⟨rest, s2⟩
        simpa [hrest] using ih s N
      · have hcl : (if (c : Int) > N then N.toNat else c) ≤ N.toNat := by
          split <;> omega
        have h0 : limitedRead rd (s, N) c =
            ((rd s (if (c : Int) > N then N.toNat else c)).1,
             (rd s (if (c : Int) > N then N.toNat else c)).2.1,
             ((rd s (if (c : Int) > N then N.toNat else c)).2.2,
              N - ((rd s (if (c : Int) > N then N.toNat else c)).1.length : Int))) := by
          unfold limitedRead
          rw [if_neg (by omega)]
        rw [h0]
        have hlen : (rd s (if (c : Int) > N then N.toNat else c)).1.length ≤ N.toNat :=
          le_trans (hwf s _) hcl
        rcases hrest : runReads (limitedRead rd) cs
            ((rd s (if (c : Int) > N then N.toNat else c)).2.2,
             N - ((rd s (if (c : Int) > N then N.toNat else c)).1.length : Int)) with ⟨rest, s2⟩
        have hres := ih ((rd s (if (c : Int) > N then N.toNat else c)).2.2)
          (N - ((rd s (if (c : Int) > N then N.toNat else c)).1.length : Int))
        rw [hrest] at hres
        dsimp only at hres
        dsimp only
        rw [hrest]
        dsimp only
        simp only [List.length_append]
        omega

/-- C5 witness: three 2-byte-capacity reads through a Bounded Reader with
budget 3 over a 5-byte source yield at most 3 bytes in total, and a read on
an exhausted budget reports `(0, EOF)` with the state untouched. -/
theorem limitedReader_witness :
    (runReads (limitedRead listRead) [2, 2, 2] ([1, 2, 3, 4, 5], 3)).1.length
      ≤ (3 : Int).toNat ∧
    limitedRead listRead ([1, 2], -1) 4 = ([], some IOErr.eof, ([1, 2], -1)) := by
  constructor
  · exact (limitedReader_spec listRead listRead [1, 2, 3, 4, 5] 3 0 [2, 2, 2]).2.2.2
      listRead_wf
  · exact ((limitedReader_spec listRead listRead [1, 2] (-1) 4 []).2.1 (by decide)).1

/-- When the `ReadAtLeast` loop exits on its own (not by fuel exhaustion)
with fewer than `mn` bytes, it carries a non-`none` error: the loop only
stops early when an error occurred. -/
theorem readAtLeastLoop_err {σ : Type} (rd : ReaderM σ) (bufLen mn : Nat) :
    ∀ (fuel n : Nat) (err : Option IOErr) (s : σ) (n' : Nat) (e : Option IOErr) (s' : σ),
      readAtLeastLoop rd bufLen mn fuel n err s = some (n', e, s') →
      n' < mn → e ≠ none := by
  intro fuel
  induction fuel with
  | zero =>
    intro n err s n' e s' h hlt
    unfold readAtLeastLoop at h
    split at h
    · exact absurd h (by simp)
    · rename_i hguard
      obtain ⟨rfl, rfl, rfl⟩ : n = n' ∧ err = e ∧ s = s' := by
        simpa [Prod.ext_iff] using h
      intro hnone
      exact hguard ⟨hlt, hnone⟩
  | succ fuel ih =>
    intro n err s n' e s' h hlt
    unfold readAtLeastLoop at h
    split at h
    · rcases hr : rd s (bufLen - n) with ⟨chunk, er, s2⟩
      rw [hr] at h
      exact ih _ _ _ _ _ _ h hlt
    · rename_i hguard
      obtain ⟨rfl, rfl, rfl⟩ : n = n' ∧ err = e ∧ s = s' := by
        simpa [Prod.ext_iff] using h
      intro hnone
      exact hguard ⟨hlt, hnone⟩

/-- C4: `ReadAtLeast` returns buffer-too-small immediately (state untouched,
before any read) when the buffer is shorter than `mn`; whenever it returns,
`n ≥ mn` holds iff no failure is reported; end-of-stream from the loop after
exactly 0 bytes is reported as end-of-stream (for a meaningful `0 < mn`
request), end-of-stream after `1..mn-1` bytes is upgraded to
unexpected-end-of-stream, any failure arriving with at least `mn` bytes
accumulated is discarded; and `ReadFull` is exactly `ReadAtLeast` at
`mn = len(buf)` (io.go lines 412-427 and 438-440). -/
theorem readAtLeast_spec {σ : Type} (rd : ReaderM σ) (bufLen mn fuel : Nat) (s : σ) :
    (bufLen < mn → ReadAtLeast rd bufLen mn fuel s = some (0, some IOErr.shortBuffer, s)) ∧
    (∀ n e s', ReadAtLeast rd bufLen mn fuel s = some (n, e, s') → (mn ≤ n ↔ e = none)) ∧
    (∀ s', mn ≤ bufLen → 0 < mn →
       readAtLeastLoop rd bufLen mn fuel 0 none s = some (0, some IOErr.eof, s') →
       ReadAtLeast rd bufLen mn fuel s = some (0, some IOErr.eof, s')) ∧
    (∀ n s', mn ≤ bufLen → 0 < n → n < mn →
       readAtLeastLoop rd bufLen mn fuel 0 none s = some (n, some IOErr.eof, s') →
       ReadAtLeast rd bufLen mn fuel s = some (n, some IOErr.unexpectedEOF, s')) ∧
    (∀ n e s', mn ≤ bufLen → mn ≤ n →
       readAtLeastLoop rd bufLen mn fuel 0 none s = some (n, e, s') →
       ReadAtLeast rd bufLen mn fuel s = some (n, none, s')) ∧
    ReadFull rd bufLen fuel s = ReadAtLeast rd bufLen bufLen fuel s := by
  refine ⟨?_, ?_, ?_, ?_, ?_, rfl⟩
  · intro h
    unfold ReadAtLeast
    rw [if_pos h]
  · intro n e s' h
    unfold ReadAtLeast at h
    split at h
    · rename_i hshort
      obtain ⟨rfl, rfl, rfl⟩ : 0 = n ∧ some IOErr.shortBuffer = e ∧ s = s' := by
        simpa [Prod.ext_iff] using h
      constructor
      · omega
      · simp
    · rename_i hlong
      rcases hloop : readAtLeastLoop rd bufLen mn fuel 0 none s with _ | ⟨n0, err0, s0⟩
      · rw [hloop] at h
        exact absurd h (by simp)
      · rw [hloop] at h
        simp only [Option.some.injEq, Prod.mk.injEq] at h
        obtain ⟨h1, h2, h3⟩ := h
        rw [← h1, ← h2]
        by_cases hge : mn ≤ n0
        · simp [hge]
        · have herr : err0 ≠ none :=
            readAtLeastLoop_err rd bufLen mn fuel 0 none s n0 err0 s0 hloop (by omega)
          rw [if_neg hge]
          constructor
          · intro hc
            exact absurd hc hge
          · intro hc
            split at hc
            · exact absurd hc (by simp)
            · exact absurd hc herr
  · intro s' hle hmn hloop
    unfold ReadAtLeast
    rw [if_neg (by omega), hloop]
    simp [Nat.not_le.mpr hmn]
  · intro n s' hle hpos hlt hloop
    unfold ReadAtLeast
    rw [if_neg (by omega), hloop]
    simp [Nat.not_le.mpr hlt, hpos]
  · intro n e s' hle hge hloop
    unfold ReadAtLeast
    rw [if_neg (by omega), hloop]
    simp [hge]

/-- C4 witness: a 2-byte buffer with `mn = 3` reports buffer-too-small with
the state untouched; a 1-byte source read into a 3-byte buffer with
`mn = 2` stops with 1 byte and upgrades end-of-stream to
unexpected-end-of-stream. -/
theorem readAtLeast_witness :
    ReadAtLeast listRead 2 3 5 [1, 2] = some (0, some IOErr.shortBuffer, [1, 2]) ∧
    ReadAtLeast listRead 3 2 5 [5] = some (1, some IOErr.unexpectedEOF, []) := by
  constructor
  · exact (readAtLeast_spec listRead 2 3 5 [1, 2]).1 (by decide)
  · exact (readAtLeast_spec listRead 3 2 5 [5]).2.2.2.1 1 [] (by decide) (by decide)
      (by decide) (by decide)

/-- Main loop lemma: over a pure source and a sink accepting all bytes, the
staging loop transfers the source's whole content, reports success, and the
sink receives exactly the source's bytes in order, provided the fuel
exceeds the source's termination measure. -/
theorem copyLoop_ok {σ τ : Type} {rd : ReaderM σ} {content : σ → List Nat}
    {bound : σ → Nat} {wr : WriterM τ} {recv : τ → List Nat}
    (hs : IsSource rd content bound) (hw : IsGoodSink wr recv)
    {cap : Nat} (hcap : 0 < cap) :
    ∀ (fuel : Nat) (s : σ) (t : τ) (w : Int), bound s < fuel →
      ∃ s' t', copyBufferLoop rd wr cap fuel s t w
          = some (w + ((content s).length : Int), none, s', t')
        ∧ recv t' = recv t ++ content s := by
  intro fuel
  induction fuel with
  | zero =>
    intro s t w h
    exact absurd h (Nat.not_lt_zero _)
  | succ fuel ih =>
    intro s t w hb
    have hsrc := hs s cap hcap
    rcases hrd : rd s cap with ⟨chunk, er, s2⟩
    rw [hrd] at hsrc
    obtain ⟨her, hlen, hcontent, heof, hbound⟩ := hsrc
    dsimp only at her hlen hcontent heof hbound
    by_cases hch : 0 < chunk.length
    · obtain ⟨t', hwt, hrecv⟩ := hw t chunk
      have hguard : ¬ ((chunk.length : Int) < 0 ∨ (chunk.length : Int) < (chunk.length : Int)) := by
        omega
      rcases her with her | her
      · subst her
        have hb2 : bound s2 < fuel := by
          have := hbound rfl
          omega
        obtain ⟨s3, t3, heq, hrecv3⟩ := ih s2 t' (w + (chunk.length : Int)) hb2
        refine ⟨s3, t3, ?_, ?_⟩
        · simp only [copyBufferLoop, hrd, hwt, if_pos hch, and_true, if_neg hguard,
            if_neg (by omega : ¬ (chunk.length : Int) ≠ (chunk.length : Int))]
          rw [heq, hcontent]
          simp only [List.length_append]
          push_cast
          ring_nf
        · rw [hrecv3, hrecv, hcontent, List.append_assoc]
      · subst her
        have hz : content s2 = [] := heof rfl
        refine ⟨s2, t', ?_, ?_⟩
        · simp only [copyBufferLoop, hrd, hwt, if_pos hch, and_true, if_neg hguard,
            if_neg (by omega : ¬ (chunk.length : Int) ≠ (chunk.length : Int))]
          rw [hcontent, hz]
          simp
        · rw [hrecv, hcontent, hz, List.append_nil]
    · have hchz : chunk = [] := by
        cases chunk with
        | nil => rfl
        | cons a l => exact absurd (by simp) hch
      subst hchz
      rcases her with her | her
      · subst her
        have hb2 : bound s2 < fuel := by
          have := hbound rfl
          omega
        obtain ⟨s3, t3, heq, hrecv3⟩ := ih s2 t w hb2
        refine ⟨s3, t3, ?_, ?_⟩
        · simp only [copyBufferLoop, hrd]
          rw [if_neg (by simp), heq]
          simp only [List.nil_append] at hcontent
          rw [hcontent]
        · rw [hrecv3]
          simp only [List.nil_append] at hcontent
          rw [hcontent]
      · subst her
        have hz : content s2 = [] := heof rfl
        have hsz : content s = [] := by
          rw [hcontent, hz]
          rfl
        refine ⟨s2, t, ?_, ?_⟩
        · simp only [copyBufferLoop, hrd]
          rw [if_neg (by simp), hsz]
          simp
        · rw [hsz, List.append_nil]

/-- C1: for every source whose total content is a byte sequence of length
`L` (its reads signal only success or end-of-stream, with a decreasing
termination measure) and every sink that accepts all bytes it is given,
`Copy` returns `(L, success)` — end-of-stream from the source is not
propagated as a failure — and the sink receives exactly the source's bytes
in order (io.go lines 481-483 and 532-558). -/
theorem copy_spec {σ τ : Type} (rd : ReaderM σ) (content : σ → List Nat)
    (bound : σ → Nat) (wr : WriterM τ) (recv : τ → List Nat)
    (fuel : Nat) (s : σ) (t : τ)
    (hs : IsSource rd content bound) (hw : IsGoodSink wr recv)
    (hfuel : bound s < fuel) :
    ∃ s' t', Copy rd wr fuel s t = some (((content s).length : Int), none, s', t')
      ∧ recv t' = recv t ++ content s := by
  have h := copyLoop_ok hs hw (show (0 : Nat) < 32 * 1024 by norm_num) fuel s t 0 hfuel
  simpa using h

/-- C1 witness: copying the 3-byte source `[1, 2, 3]` into the accumulating
sink returns `(3, success)` and the sink holds exactly those bytes. -/
theorem copy_witness :
    ∃ s' t', Copy listRead accWrite 4 [1, 2, 3] [] = some (3, none, s', t')
      ∧ t' = [1, 2, 3] := by
  obtain ⟨s', t', h1, h2⟩ := copy_spec listRead id List.length accWrite id 4 [1, 2, 3] []
    listRead_isSource accWrite_isGoodSink (by decide)
  exact ⟨s', t', by simpa using h1, by simpa using h2⟩

/-- A Bounded Reader over a pure source is itself a pure source whose
content is the underlying content truncated to the budget. -/
theorem limitedRead_isSource {σ : Type} {rd : ReaderM σ} {content : σ → List Nat}
    {bound : σ → Nat} (hs : IsSource rd content bound) :
    IsSource (limitedRead rd) (fun st => (content st.1).take st.2.toNat)
      (fun st => bound st.1 + 1) := by
  rintro ⟨s, N⟩ cap hcap
  by_cases hN : N ≤ 0
  · have h0 : limitedRead rd (s, N) cap = ([], some IOErr.eof, (s, N)) := by
      unfold limitedRead
      simp [hN]
    rw [h0]
    refine ⟨Or.inr rfl, by simp, by simp, ?_, by simp⟩
    intro _
    have : N.toNat = 0 := by omega
    simp [this]
  · have hcl : (if (cap : Int) > N then N.toNat else cap) = min cap N.toNat := by
      split <;> omega
    have h0 : limitedRead rd (s, N) cap =
        ((rd s (min cap N.toNat)).1, (rd s (min cap N.toNat)).2.1,
         ((rd s (min cap N.toNat)).2.2,
          N - ((rd s (min cap N.toNat)).1.length : Int))) := by
      unfold limitedRead
      rw [if_neg (by omega), hcl]
    rw [h0]
    have hcap2 : 0 < min cap N.toNat := by omega
    have hsrc := hs s (min cap N.toNat) hcap2
    rcases hrd : rd s (min cap N.toNat) with ⟨chunk, er, s2⟩
    rw [hrd] at hsrc
    obtain ⟨her, hlen, hcontent, heof, hbound⟩ := hsrc
    dsimp only at her hlen hcontent heof hbound
    dsimp only
    have hlenN : chunk.length ≤ N.toNat := le_trans hlen (by omega)
    refine ⟨her, le_trans hlen (by omega), ?_, ?_, ?_⟩
    · rw [hcontent, List.take_append_eq_append_take,
        List.take_of_length_le hlenN]
      have : (N - (chunk.length : Int)).toNat = N.toNat - chunk.length := by
        omega
      rw [this]
    · intro he
      rw [heof he]
      simp
    · intro he
      exact Nat.add_lt_add_right (hbound he) 1

/-- C2: for every source of total content length `L`, every sink accepting
all bytes, and every requested count `0 ≤ n`: if `n ≤ L` then `CopyN`
returns `(n, success)` and the sink receives the first `n` bytes; if
`n > L` it returns `(L, EOF)` — the end-of-stream sentinel is the reported
failure when the source ran dry early — and the sink receives all `L`
bytes (io.go lines 453-463). -/
theorem copyN_spec {σ τ : Type} (rd : ReaderM σ) (content : σ → List Nat)
    (bound : σ → Nat) (wr : WriterM τ) (recv : τ → List Nat)
    (n : Int) (fuel : Nat) (s : σ) (t : τ)
    (hs : IsSource rd content bound) (hw : IsGoodSink wr recv)
    (hn : 0 ≤ n) (hfuel : bound s + 1 < fuel) :
    (n ≤ ((content s).length : Int) →
       ∃ st t', CopyN rd wr n fuel s t = some (n, none, st, t')
         ∧ recv t' = recv t ++ (content s).take n.toNat) ∧
    (((content s).length : Int) < n →
       ∃ st t', CopyN rd wr n fuel s t
           = some (((content s).length : Int), some IOErr.eof, st, t')
         ∧ recv t' = recv t ++ content s) := by
  have hcap : 0 < copyNBufSize n := by
    unfold copyNBufSize
    split
    · split <;> omega
    · omega
  obtain ⟨st, t', heq, hrecv⟩ :=
    copyLoop_ok (limitedRead_isSource hs) hw hcap fuel (s, n) t 0 hfuel
  simp only [zero_add] at heq
  constructor
  · intro hle
    have hW : ((content s).take n.toNat).length = n.toNat := by
      rw [List.length_take]
      omega
    have hWi : ((((content s).take n.toNat).length : Nat) : Int) = n := by
      rw [hW]
      omega
    refine ⟨st, t', ?_, hrecv⟩
    unfold CopyN
    rw [heq, hWi]
    simp
  · intro hlt
    have hall : (content s).take n.toNat = content s :=
      List.take_of_length_le (by omega)
    rw [hall] at heq
    refine ⟨st, t', ?_, by rw [hrecv, hall]⟩
    unfold CopyN
    rw [heq]
    dsimp only
    rw [if_neg (by omega), if_pos ⟨by omega, rfl⟩]

/-- C2 witness: over the 3-byte source `[1, 2, 3]`: `CopyN` with `n = 2`
returns `(2, success)` and the sink holds `[1, 2]`; with `n = 5` it returns
`(3, EOF)` and the sink holds all three bytes. -/
theorem copyN_witness :
    (∃ st t', CopyN listRead accWrite 2 6 [1, 2, 3] [] = some (2, none, st, t')
       ∧ t' = [1, 2]) ∧
    (∃ st t', CopyN listRead accWrite 5 6 [1, 2, 3] []
         = some (3, some IOErr.eof, st, t')
       ∧ t' = [1, 2, 3]) := by
  constructor
  · obtain ⟨st, t', h1, h2⟩ := (copyN_spec listRead id List.length accWrite id 2 6
      [1, 2, 3] [] listRead_isSource accWrite_isGoodSink (by decide) (by decide)).1
      (by decide)
    exact ⟨st, t', h1, by simpa using h2⟩
  · obtain ⟨st, t', h1, h2⟩ := (copyN_spec listRead id List.length accWrite id 5 6
      [1, 2, 3] [] listRead_isSource accWrite_isGoodSink (by decide) (by decide)).2
      (by decide)
    exact ⟨st, t', by simpa using h1, by simpa using h2⟩

end GoIO
